import Mathlib

/-!
Verification of the Marew HTTP engine specification.

The repository's core HTTP engine (`martin_eden.core`, `martin_eden.http_utils`,
`martin_eden.routing`, the openapi module and the test conftest) is not present
under `src/`; only its test suite (`src/tests/test_http_message_handler.py`) and
the out-of-scope database layer are.  The engine is therefore modelled from the
specification, component by component (Header Parser, Route Registry, Schema
Builder, Message Handler, Response Serializer), with the visible tests as the
authority wherever they pin behaviour the spec leaves open.
-/

namespace Marew

/-! ## Basic string machinery (self-contained, kernel-evaluable) -/

/-- Uppercase a single ASCII character, as Python `str.upper` does on ASCII. -/
def charToUpper (c : Char) : Char :=
  if 'a' ≤ c ∧ c ≤ 'z' then Char.ofNat (c.toNat - 32) else c

/-- Lowercase a single ASCII character, as Python `str.lower` does on ASCII. -/
def charToLower (c : Char) : Char :=
  if 'A' ≤ c ∧ c ≤ 'Z' then Char.ofNat (c.toNat + 32) else c

/-- Uppercase an ASCII string. -/
def strToUpper (s : String) : String :=
  String.mk (s.toList.map charToUpper)

/-- Lowercase an ASCII string. -/
def strToLower (s : String) : String :=
  String.mk (s.toList.map charToLower)

/-- Split a character list on a separator character; the separator is dropped.
`splitListOn c l` always returns a nonempty list of chunks. -/
def splitListOn (sep : Char) : List Char → List (List Char)
  | [] => [[]]
  | c :: cs =>
    match splitListOn sep cs with
    | [] => if c = sep then [[], []] else [[c]]
    | r :: rs => if c = sep then [] :: r :: rs else (c :: r) :: rs

/-- Split a string into its newline-separated lines. -/
def splitLines (s : String) : List String :=
  (splitListOn '\n' s.toList).map String.mk

/-- Split a string into its space-separated words. -/
def splitWords (s : String) : List String :=
  (splitListOn ' ' s.toList).map String.mk

/-- Concatenate a list of strings. -/
def joinAll : List String → String
  | [] => ""
  | x :: xs => x ++ joinAll xs

/-- Join strings with a comma-and-space separator, as Python `", ".join` does. -/
def joinCommaSep : List String → String
  | [] => ""
  | [m] => m
  | m :: ms => m ++ ", " ++ joinCommaSep ms

/-- Join strings with newline separators, as Python `"\n".join` does. -/
def joinNewlineSep : List String → String
  | [] => ""
  | [l] => l
  | l :: ls => l ++ "\n" ++ joinNewlineSep ls

/-- Remove every slash from a string (Python `path.replace('/', '')`). -/
def stripSlashes (s : String) : String :=
  String.mk (s.toList.filter (fun c => c ≠ '/'))

/-- Drop leading and trailing spaces (header-value trimming). -/
def trimSpaces (l : List Char) : List Char :=
  ((l.dropWhile (fun c => c = ' ')).reverse.dropWhile (fun c => c = ' ')).reverse

/-! ## Data model -/

/-- A structured HTTP request, as produced by the Header Parser (`HttpHeadersParser`):
method (normalized to upper case), path, ordered header map and body. -/
structure Request where
  method : String
  path : String
  headers : List (String × String)
  body : String

/-- Modelled from the spec: a registered handler is an asynchronous, argument-less
capability producing a string body.  Handlers are defunctionalized so that the
synthetic schema route can introspect the Route Registry it lives in: `plain f`
is an ordinary application handler, `openapiSchema` is the handler of the
schema endpoint (the repository's openapi module is not under `src/`). -/
inductive Handler where
  | plain : (Unit → String) → Handler
  | openapiSchema : Handler

/-- A registered route: path, lower-cased method token, the registering
function's name, the handler, and the schema-facing operation identifier. -/
structure Route where
  path : String
  method : String
  handlerName : String
  handler : Handler
  operationId : String

/-- A response before serialization: status line, ordered headers, body. -/
structure Response where
  statusLine : String
  headers : List (String × String)
  body : String

/-! ## Route Registry -/

/-- Look up the route registered for a (path, method) pair: first match in
registration order (the registry holds at most one route per pair). -/
def findRoute : List Route → String → String → Option Route
  | [], _, _ => none
  | r :: rs, p, m => if r.path = p ∧ r.method = m then some r else findRoute rs p m

/-- All methods registered for a path, in registration order (the enumeration
the OPTIONS branch needs). -/
def methodsForPath : List Route → String → List String
  | [], _ => []
  | r :: rs, p => if r.path = p then r.method :: methodsForPath rs p else methodsForPath rs p

/-- Insert a route: re-registering the same (path, method) pair overwrites the
prior entry in place (Python dict update semantics); otherwise append. -/
def overwriteRoute (r : Route) : List Route → List Route
  | [] => [r]
  | q :: qs => if q.path = r.path ∧ q.method = r.method then r :: qs else q :: overwriteRoute r qs

/-- Modelled from the spec: `register_route` from `martin_eden.routing` (not under
`src/`).  Lower-cases the method, builds the Route, inserts it into the registry
keyed by (path, lower-cased method) and returns the original handler unchanged.
The operation identifier is derived from the path with slashes removed plus the
lower-cased method: the visible test registers a handler function named
`get_openapi_schema` on `('/test/', 'get')` and the schema reports operationId
`test_get`, so the identifier is path-derived, not handler-name-derived. -/
def register_route (path method handlerName : String) (h : Handler) (reg : List Route) :
    List Route × Handler :=
  let m := strToLower method
  let oid := stripSlashes path ++ "_" ++ m
  (overwriteRoute ⟨path, m, handlerName, h, oid⟩ reg, h)

/-! ## Schema Builder -/

/-- The fixed path of the schema endpoint. -/
def schemaPath : String := "/schema/"

/-- The paths of all registered routes, in registration order (with repeats). -/
def listPaths : List Route → List String
  | [] => []
  | r :: rs => r.path :: listPaths rs

/-- Remove every occurrence of a string from a list. -/
def removeStr (p : String) : List String → List String
  | [] => []
  | q :: qs => if q = p then removeStr p qs else q :: removeStr p qs

/-- Deduplicate, keeping the first occurrence of each string in order. -/
def dedupKeep : List String → List String
  | [] => []
  | p :: ps => p :: removeStr p (dedupKeep ps)

/-- The (method, operationId) entries of all routes registered under a path,
in registration order. -/
def methodEntries : List Route → String → List (String × String)
  | [], _ => []
  | r :: rs, p =>
    if r.path = p then (r.method, r.operationId) :: methodEntries rs p
    else methodEntries rs p

/-- Modelled from the spec and the visible test: the `paths` mapping of the
SchemaDocument.  One entry per registered path, in registration order, each
mapping to its (method, operationId) entries; the schema route itself is
excluded (the test asserts the document for a registry holding `/schema/` and
`/test/` contains only `/test/`). -/
def schemaPaths (reg : List Route) : List (String × List (String × String)) :=
  (removeStr schemaPath (dedupKeep (listPaths reg))).map (fun p => (p, methodEntries reg p))

/-- Look up a path's entry in the schema paths mapping (first match). -/
def lookupPath : List (String × List (String × String)) → String → Option (List (String × String))
  | [], _ => none
  | e :: es, p => if e.1 = p then some e.2 else lookupPath es p

/-- Quote a JSON string (the schema's keys and values need no escaping). -/
def jsonQuote (s : String) : String := "\"" ++ s ++ "\""

/-- Encode one operation object `\x7b"operationId": "..."\x7d`. -/
def encodeOperation (oid : String) : String :=
  "\x7b\"operationId\": " ++ jsonQuote oid ++ "\x7d"

/-- Encode one path's method map. -/
def encodeMethodMap (ms : List (String × String)) : String :=
  "\x7b" ++ joinCommaSep (ms.map (fun m => jsonQuote m.1 ++ ": " ++ encodeOperation m.2)) ++ "\x7d"

/-- Encode the paths map. -/
def encodePathsMap (ps : List (String × List (String × String))) : String :=
  "\x7b" ++ joinCommaSep (ps.map (fun p => jsonQuote p.1 ++ ": " ++ encodeMethodMap p.2)) ++ "\x7d"

/-- Modelled from the spec: the schema endpoint's body, the JSON-encoded
SchemaDocument (Python `json.dumps` default separators). -/
def encodeSchema (reg : List Route) : String :=
  "\x7b\"paths\": " ++ encodePathsMap (schemaPaths reg) ++ "\x7d"

/-- Run a handler against the registry it is registered in. -/
def runHandler (reg : List Route) : Handler → String
  | .plain f => f ()
  | .openapiSchema => encodeSchema reg

/-! ## Header Parser -/

/-- Parse one `Name: value` header line: split at the first colon, trim spaces
around the value. -/
def splitAtColon : List Char → Option (List Char × List Char)
  | [] => none
  | c :: cs =>
    if c = ':' then some ([], cs)
    else
      match splitAtColon cs with
      | some (n, v) => some (c :: n, v)
      | none => none

/-- Parse the header block: lines up to the first blank line become
(name, value) pairs, the remaining lines are the body.  Fails when no blank
line terminates the block or a header line has no colon. -/
def parseHeaderLines : List String → Option (List (String × String) × List String)
  | [] => none
  | l :: ls =>
    if l = "" then some ([], ls)
    else
      match splitAtColon l.toList with
      | none => none
      | some (n, v) =>
        match parseHeaderLines ls with
        | none => none
        | some (hs, bodyLines) =>
          some ((String.mk n, String.mk (trimSpaces v)) :: hs, bodyLines)

/-- Modelled from the spec: `HttpHeadersParser` from `martin_eden.http_utils`
(not under `src/`).  Splits the buffer into the `METHOD PATH VERSION` request
line, the header block terminated by a blank line, and the body; the method is
normalized to upper case.  Returns `none` on a malformed message (ParseError). -/
def parse_http_request (raw : String) : Option Request :=
  match splitLines raw with
  | [] => none
  | requestLine :: rest =>
    match splitWords requestLine with
    | [m, p, _] =>
      match parseHeaderLines rest with
      | none => none
      | some (hs, bodyLines) => some ⟨strToUpper m, p, hs, joinNewlineSep bodyLines⟩
    | _ => none

/-! ## Message Handler -/

/-- The Content-Type header emitted on every success and not-found response. -/
def contentTypeHeader : String × String :=
  ("Content-Type", "application/json;charset=UTF-8")

/-- Modelled from the spec: the 200-class status line ("status is 200-class OK"). -/
def okStatusLine : String := "HTTP/1.1 200 OK"

/-- Modelled from the spec: the not-found status line ("status reflects not found"). -/
def notFoundStatusLine : String := "HTTP/1.1 404 Not Found"

/-- Modelled from the spec: the standard headers of `base_http_result_headers`
live in the test conftest, which is not under `src/`; none of the verified
contracts constrains them, so they are modelled as the empty sequence. -/
def baseResponseHeaders : List (String × String) := []

/-- The canonical not-found response: literal body `404 not found`, still
carrying the JSON Content-Type header. -/
def notFoundResponse : Response :=
  ⟨notFoundStatusLine, baseResponseHeaders ++ [contentTypeHeader], "404 not found"⟩

/-- A success response: the handler's string as body, plus the JSON
Content-Type header. -/
def successResponse (b : String) : Response :=
  ⟨okStatusLine, baseResponseHeaders ++ [contentTypeHeader], b⟩

/-- The Allow header value: `OPTIONS` first, then every method registered for
the path, upper-cased, in registration order, comma-and-space separated. -/
def allowValue (ms : List String) : String :=
  joinCommaSep ("OPTIONS" :: ms.map strToUpper)

/-- An OPTIONS response: only the Allow header, no body, no Content-Type. -/
def optionsResponse (ms : List String) : Response :=
  ⟨okStatusLine, baseResponseHeaders ++ [("Allow", allowValue ms)], ""⟩

/-- Modelled from the spec: the dispatch step of the Message Handler
(`HttpMessageHandler` from `martin_eden.core`, not under `src/`).  OPTIONS
enumerates the methods registered for the path (falling through to not-found
when the path is entirely unregistered); otherwise the (path, lower-cased
method) pair is looked up, a hit awaits the handler, a miss yields the
canonical not-found response. -/
def dispatch (reg : List Route) (req : Request) : Response :=
  if req.method = "OPTIONS" then
    if methodsForPath reg req.path = [] then notFoundResponse
    else optionsResponse (methodsForPath reg req.path)
  else
    match findRoute reg req.path (strToLower req.method) with
    | some r => successResponse (runHandler reg r.handler)
    | none => notFoundResponse

/-! ## Response Serializer -/

/-- The header block: each header as `Name: value` followed by one LF. -/
def headerLines : List (String × String) → String
  | [] => ""
  | h :: hs => h.1 ++ ": " ++ h.2 ++ "\n" ++ headerLines hs

/-- Modelled from the spec: the Response Serializer.  Status line, LF, the
header block, one blank-line LF, then the raw body with no trailing
terminator. -/
def serializeResponse (r : Response) : String :=
  r.statusLine ++ "\n" ++ headerLines r.headers ++ "\n" ++ r.body

/-- Modelled from the spec: `HttpMessageHandler.handle_request`, the full
parse → dispatch → serialize pipeline; `none` models a fatal ParseError. -/
def handle_request (reg : List Route) (raw : String) : Option String :=
  match parse_http_request raw with
  | none => none
  | some req => some (serializeResponse (dispatch reg req))

/-! ## Concrete scenario fixtures (from the visible tests) -/

/-- Modelled from the spec: the conftest's `base_http_request` is not under
`src/`; a minimal well-formed GET request to `/users/` per the wire format. -/
def base_http_request : String :=
  "GET /users/ HTTP/1.1\nHost: localhost\n\n"

/-- The application handler registered by the test module: returns `test`. -/
def testHandler : Handler := .plain (fun _ => "test")

/-- The registry after the schema route registers itself. -/
def schemaRegistry : List Route :=
  (register_route schemaPath ("get") ("get_openapi_schema") Handler.openapiSchema []).1

/-- The registry of the visible tests: the schema route plus the test module's
GET `/test/` route (whose handler function is also named `get_openapi_schema`). -/
def testRegistry : List Route :=
  (register_route ("/test/") ("get") ("get_openapi_schema") testHandler schemaRegistry).1

/-- A registry with GET and POST registered on `/test/` (spec Scenario C). -/
def optionsRegistry : List Route :=
  (register_route ("/test/") ("post") ("create_user") (.plain (fun _ => "")) testRegistry).1

/-- The parsed GET request to `/test/`. -/
def reqTestGet : Request := ⟨"GET", "/test/", [("Host", "localhost")], ""⟩

/-- The parsed GET request to the unregistered `/users/`. -/
def reqUsersGet : Request := ⟨"GET", "/users/", [("Host", "localhost")], ""⟩

/-- The parsed OPTIONS request to `/test/`. -/
def reqTestOptions : Request := ⟨"OPTIONS", "/test/", [("Host", "localhost")], ""⟩

/-- The route the test module's registration inserts. -/
def routeTestGet : Route :=
  ⟨"/test/", "get", "get_openapi_schema", testHandler, "test_get"⟩

/-- The raw GET request to the schema endpoint (`base_http_request` with
`/users/` replaced by `/schema/`). -/
def schemaRawRequest : String :=
  "GET /schema/ HTTP/1.1\nHost: localhost\n\n"

/-- The header names of a response, in emission order. -/
def headerNames (r : Response) : List String := r.headers.map Prod.fst

/-! ## Helper lemmas -/

theorem headerLines_eq_joinAll (hs : List (String × String)) :
    headerLines hs = joinAll (hs.map (fun h => h.1 ++ ": " ++ h.2 ++ "\n")) := by
  induction hs with
  | nil => rfl
  | cons h hs ih => simp [headerLines, joinAll, ih]

theorem headerLines_append_last (hs : List (String × String)) (n v : String) :
    headerLines (hs ++ [(n, v)]) = headerLines hs ++ (n ++ ": " ++ v ++ "\n") := by
  induction hs with
  | nil => simp [headerLines]
  | cons h hs ih => simp [headerLines, ih, String.append_assoc]

theorem lf_lf_append (b : String) : "\n" ++ ("\n" ++ b) = "\n\n" ++ b := by
  rw [← String.append_assoc]
  rfl

theorem joinAll_append (A B : List String) : joinAll (A ++ B) = joinAll A ++ joinAll B := by
  induction A with
  | nil => simp [joinAll, String.empty_append]
  | cons x xs ih => simp [joinAll, ih, String.append_assoc]

/-! ## Claims about the Response Serializer -/

/-- C6: for every (status, ordered header sequence, body) triple, the Response
Serializer emits exactly the status line, one LF, each header as `Name: value`
followed by one LF in contribution order, one blank-line LF, then the raw body
with no additional terminator after it. -/
theorem serialize_response_layout (s : String) (hs : List (String × String)) (b : String) :
    serializeResponse ⟨s, hs, b⟩ =
      s ++ "\n" ++ joinAll (hs.map (fun h => h.1 ++ ": " ++ h.2 ++ "\n")) ++ "\n" ++ b := by
  simp [serializeResponse, headerLines_eq_joinAll]

/-- C9: every header line and the terminating blank line are terminated by a
single LF, not CRLF: serializing a response whose last header is `(n, v)`
yields the earlier header lines each ending in one LF, then `n ++ ": " ++ v`
followed immediately by exactly `"\n\n"` and then the body. -/
theorem serialize_lf_terminators (s n v b : String) (hs : List (String × String)) :
    serializeResponse ⟨s, hs ++ [(n, v)], b⟩ =
      s ++ "\n" ++ joinAll (hs.map (fun h => h.1 ++ ": " ++ h.2 ++ "\n")) ++
        (n ++ ": " ++ v) ++ "\n\n" ++ b := by
  rw [serializeResponse]
  simp [headerLines_eq_joinAll, joinAll_append, joinAll, String.append_assoc,
    String.append_empty, lf_lf_append]

/-! ## Claims about dispatch -/

/-- C1: dispatching a request whose path and method match a registered route
invokes exactly that route's handler: the response is the success response
whose body is the handler's returned string, and it carries the
`Content-Type: application/json;charset=UTF-8` header even for a plain-text
payload. -/
theorem dispatch_registered_route (reg : List Route) (req : Request) (r : Route)
    (hm : req.method ≠ "OPTIONS")
    (hf : findRoute reg req.path (strToLower req.method) = some r) :
    dispatch reg req = successResponse (runHandler reg r.handler) ∧
    (dispatch reg req).body = runHandler reg r.handler ∧
    contentTypeHeader ∈ (dispatch reg req).headers := by
  unfold dispatch
  rw [if_neg hm, hf]
  exact ⟨rfl, rfl, by simp [successResponse, baseResponseHeaders]⟩

/-- C1 witness: the test scenario, GET `/test/` with the registered handler
returning the plain-text payload `test`. -/
theorem dispatch_registered_route_witness :
    dispatch testRegistry reqTestGet = successResponse (runHandler testRegistry routeTestGet.handler) ∧
    (dispatch testRegistry reqTestGet).body = runHandler testRegistry routeTestGet.handler ∧
    contentTypeHeader ∈ (dispatch testRegistry reqTestGet).headers :=
  dispatch_registered_route testRegistry reqTestGet routeTestGet (by decide) rfl

/-- C2: dispatching a request whose method is not OPTIONS and whose
(path, method) pair is unregistered yields the canonical not-found response:
body exactly `404 not found`, headers including the JSON Content-Type. -/
theorem dispatch_unregistered_route (reg : List Route) (req : Request)
    (hm : req.method ≠ "OPTIONS")
    (hf : findRoute reg req.path (strToLower req.method) = none) :
    dispatch reg req = notFoundResponse ∧
    (dispatch reg req).body = "404 not found" ∧
    contentTypeHeader ∈ (dispatch reg req).headers := by
  unfold dispatch
  rw [if_neg hm, hf]
  exact ⟨rfl, rfl, by simp [notFoundResponse, baseResponseHeaders]⟩

/-- C2 witness: the test scenario, GET `/users/` against the test registry. -/
theorem dispatch_unregistered_route_witness :
    dispatch testRegistry reqUsersGet = notFoundResponse ∧
    (dispatch testRegistry reqUsersGet).body = "404 not found" ∧
    contentTypeHeader ∈ (dispatch testRegistry reqUsersGet).headers :=
  dispatch_unregistered_route testRegistry reqUsersGet (by decide) rfl

/-- C3: dispatching an OPTIONS request to a path with at least one registered
method yields the OPTIONS response: an Allow header listing `OPTIONS` first,
then every method registered for the path, upper-cased, in registration order,
comma-and-space separated; no body and no Content-Type header. -/
theorem dispatch_options_allow (reg : List Route) (req : Request)
    (hm : req.method = "OPTIONS")
    (hne : methodsForPath reg req.path ≠ []) :
    dispatch reg req = optionsResponse (methodsForPath reg req.path) ∧
    (dispatch reg req).headers =
      baseResponseHeaders ++
        [(("Allow"), joinCommaSep (("OPTIONS") :: (methodsForPath reg req.path).map strToUpper))] ∧
    (dispatch reg req).body = "" ∧
    ∀ v, (("Content-Type", v) : String × String) ∉ (dispatch reg req).headers := by
  unfold dispatch
  rw [if_pos hm, if_neg hne]
  refine ⟨rfl, rfl, rfl, ?_⟩
  intro v
  simp [optionsResponse, baseResponseHeaders]

/-- C3 witness: OPTIONS `/test/` with GET and POST registered yields
`Allow: OPTIONS, GET, POST`, no body and no Content-Type header. -/
theorem dispatch_options_allow_witness :
    (dispatch optionsRegistry reqTestOptions = optionsResponse (methodsForPath optionsRegistry reqTestOptions.path) ∧
      (dispatch optionsRegistry reqTestOptions).headers =
        baseResponseHeaders ++
          [(("Allow"), joinCommaSep (("OPTIONS") :: (methodsForPath optionsRegistry reqTestOptions.path).map strToUpper))] ∧
      (dispatch optionsRegistry reqTestOptions).body = "" ∧
      ∀ v, (("Content-Type", v) : String × String) ∉ (dispatch optionsRegistry reqTestOptions).headers) ∧
    allowValue (methodsForPath optionsRegistry reqTestOptions.path) = "OPTIONS, GET, POST" :=
  ⟨dispatch_options_allow optionsRegistry reqTestOptions rfl (by decide), by decide⟩

/-- C8: handling the same raw request bytes twice against the same unchanged
registry produces byte-identical responses. -/
theorem handle_request_deterministic (reg : List Route) (raw1 raw2 : String)
    (h : raw1 = raw2) :
    handle_request reg raw1 = handle_request reg raw2 := by
  rw [h]

/-- C8 witness: the baseline raw request, written out twice, handled against
the test registry. -/
theorem handle_request_deterministic_witness :
    handle_request testRegistry base_http_request =
      handle_request testRegistry ("GET /users/ HTTP/1.1\nHost: localhost\n\n") :=
  handle_request_deterministic testRegistry base_http_request
    ("GET /users/ HTTP/1.1\nHost: localhost\n\n") rfl

/-- C7: on every response the engine produces, the JSON Content-Type header
and the Allow header are mutually exclusive; Allow appears only on responses
to OPTIONS requests, and Content-Type only on success and not-found
responses. -/
theorem response_header_exclusivity (reg : List Route) (req : Request) :
    ¬(("Content-Type") ∈ headerNames (dispatch reg req) ∧
        ("Allow") ∈ headerNames (dispatch reg req)) ∧
    (("Allow") ∈ headerNames (dispatch reg req) → req.method = "OPTIONS") ∧
    (("Content-Type") ∈ headerNames (dispatch reg req) →
      (∃ b, dispatch reg req = successResponse b) ∨ dispatch reg req = notFoundResponse) := by
  by_cases hm : req.method = "OPTIONS"
  · by_cases hmp : methodsForPath reg req.path = []
    · rw [dispatch, if_pos hm, if_pos hmp]
      refine ⟨by decide, fun _ => hm, fun _ => Or.inr rfl⟩
    · rw [dispatch, if_pos hm, if_neg hmp]
      refine ⟨?_, fun _ => hm, ?_⟩
      · simp [headerNames, optionsResponse, baseResponseHeaders]
      · intro hct
        exfalso
        revert hct
        simp [headerNames, optionsResponse, baseResponseHeaders]
  · rw [dispatch, if_neg hm]
    cases hfr : findRoute reg req.path (strToLower req.method) with
    | none =>
      refine ⟨?_, ?_, fun _ => Or.inr rfl⟩
      · show ¬(("Content-Type") ∈ headerNames notFoundResponse ∧
            ("Allow") ∈ headerNames notFoundResponse)
        decide
      · intro ha
        exact absurd (show ("Allow") ∈ headerNames notFoundResponse from ha) (by decide)
    | some r =>
      refine ⟨?_, ?_, fun _ => Or.inl ⟨runHandler reg r.handler, rfl⟩⟩
      · simp [headerNames, successResponse, baseResponseHeaders, contentTypeHeader]
      · intro ha
        exact absurd ha
          (by simp [headerNames, successResponse, baseResponseHeaders, contentTypeHeader])

/-- C7 witness: the OPTIONS scenario, where the Allow branch is actually
taken and the inner implication's antecedent is discharged concretely. -/
theorem response_header_exclusivity_witness :
    ¬(("Content-Type") ∈ headerNames (dispatch optionsRegistry reqTestOptions) ∧
        ("Allow") ∈ headerNames (dispatch optionsRegistry reqTestOptions)) ∧
    reqTestOptions.method = "OPTIONS" :=
  ⟨(response_header_exclusivity optionsRegistry reqTestOptions).1,
    (response_header_exclusivity optionsRegistry reqTestOptions).2.1 (by decide)⟩

/-! ## Helper lemmas for the Schema Builder claims -/

theorem mem_removeStr_of (p q : String) (l : List String) (hq : q ∈ l) (hne : q ≠ p) :
    q ∈ removeStr p l := by
  induction l with
  | nil => cases hq
  | cons a l ih =>
    rcases List.mem_cons.mp hq with rfl | hq2
    · rw [removeStr, if_neg hne]
      exact List.mem_cons_self _ _
    · by_cases ha : a = p
      · rw [removeStr, if_pos ha]
        exact ih hq2
      · rw [removeStr, if_neg ha]
        exact List.mem_cons_of_mem _ (ih hq2)

theorem ne_of_mem_removeStr (p q : String) (l : List String) (hq : q ∈ removeStr p l) :
    q ≠ p := by
  induction l with
  | nil => cases hq
  | cons a l ih =>
    by_cases ha : a = p
    · rw [removeStr, if_pos ha] at hq
      exact ih hq
    · rw [removeStr, if_neg ha] at hq
      rcases List.mem_cons.mp hq with rfl | hq2
      · exact ha
      · exact ih hq2

theorem mem_dedupKeep_of (q : String) (l : List String) (hq : q ∈ l) : q ∈ dedupKeep l := by
  induction l with
  | nil => cases hq
  | cons a l ih =>
    rcases List.mem_cons.mp hq with rfl | hq2
    · exact List.mem_cons_self _ _
    · by_cases hqa : q = a
      · rw [hqa]
        exact List.mem_cons_self _ _
      · exact List.mem_cons_of_mem _ (mem_removeStr_of a q _ (ih hq2) hqa)

theorem mem_listPaths_of (r : Route) (reg : List Route) (hr : r ∈ reg) :
    r.path ∈ listPaths reg := by
  induction reg with
  | nil => cases hr
  | cons a rs ih =>
    rcases List.mem_cons.mp hr with rfl | hr2
    · exact List.mem_cons_self _ _
    · exact List.mem_cons_of_mem _ (ih hr2)

theorem mem_methodEntries_of (r : Route) (reg : List Route) (p : String)
    (hr : r ∈ reg) (hp : r.path = p) :
    ((r.method, r.operationId) : String × String) ∈ methodEntries reg p := by
  induction reg with
  | nil => cases hr
  | cons a rs ih =>
    rcases List.mem_cons.mp hr with rfl | hr2
    · rw [methodEntries, if_pos hp]
      exact List.mem_cons_self _ _
    · by_cases hap : a.path = p
      · rw [methodEntries, if_pos hap]
        exact List.mem_cons_of_mem _ (ih hr2)
      · rw [methodEntries, if_neg hap]
        exact ih hr2

theorem lookupPath_map_self (ps : List String) (f : String → List (String × String))
    (p : String) (hp : p ∈ ps) :
    lookupPath (ps.map (fun q => (q, f q))) p = some (f p) := by
  induction ps with
  | nil => cases hp
  | cons a ps ih =>
    by_cases hap : a = p
    · subst hap
      rw [List.map_cons, lookupPath, if_pos rfl]
    · rw [List.map_cons, lookupPath, if_neg hap]
      rcases List.mem_cons.mp hp with rfl | hp2
      · exact absurd rfl hap
      · exact ih hp2

/-- C10: the schema document excludes the schema route itself: its paths
mapping has no entry keyed by the schema path, while every route registered
under any other path contributes its (method, operationId) entry to the
entry looked up at its path. -/
theorem schema_document_excludes_self (reg : List Route) :
    (∀ ms, ((schemaPath, ms) : String × List (String × String)) ∉ schemaPaths reg) ∧
    (∀ r, r ∈ reg → r.path ≠ schemaPath →
      ∃ ms, lookupPath (schemaPaths reg) r.path = some ms ∧
        ((r.method, r.operationId) : String × String) ∈ ms) := by
  constructor
  · intro ms hmem
    rw [schemaPaths] at hmem
    obtain ⟨p, hp, heq⟩ := List.mem_map.mp hmem
    have hfst : p = schemaPath := congrArg Prod.fst heq
    exact ne_of_mem_removeStr schemaPath p _ hp hfst
  · intro r hr hne
    refine ⟨methodEntries reg r.path, ?_, mem_methodEntries_of r reg r.path hr rfl⟩
    rw [schemaPaths]
    exact lookupPath_map_self _ _ _
      (mem_removeStr_of schemaPath r.path _
        (mem_dedupKeep_of r.path _ (mem_listPaths_of r reg hr)) hne)

/-- C10 witness: the test registry, at the test module's route. -/
theorem schema_document_excludes_self_witness :
    (∀ ms, ((schemaPath, ms) : String × List (String × String)) ∉ schemaPaths testRegistry) ∧
    (∃ ms, lookupPath (schemaPaths testRegistry) routeTestGet.path = some ms ∧
      ((routeTestGet.method, routeTestGet.operationId) : String × String) ∈ ms) :=
  ⟨(schema_document_excludes_self testRegistry).1,
    (schema_document_excludes_self testRegistry).2 routeTestGet
      (List.mem_cons_of_mem _ (List.mem_cons_self _ _)) (by decide)⟩

/-! ## Helper lemmas for registration -/

/-- Occurrence count of a (method, operationId) pair. -/
def countPair (x : String × String) : List (String × String) → Nat
  | [] => 0
  | y :: ys => (if y = x then 1 else 0) + countPair x ys

/-- Occurrence count of a string. -/
def countStr (x : String) : List String → Nat
  | [] => 0
  | y :: ys => (if y = x then 1 else 0) + countStr x ys

theorem overwriteRoute_of_not_found (q : Route) (reg : List Route)
    (hf : findRoute reg q.path q.method = none) :
    overwriteRoute q reg = reg ++ [q] := by
  induction reg with
  | nil => rfl
  | cons a rs ih =>
    rw [findRoute] at hf
    by_cases hc : a.path = q.path ∧ a.method = q.method
    · rw [if_pos hc] at hf
      cases hf
    · rw [if_neg hc] at hf
      rw [overwriteRoute, if_neg hc, ih hf]
      rfl

theorem findRoute_append_none (l1 l2 : List Route) (p m : String)
    (hf : findRoute l1 p m = none) :
    findRoute (l1 ++ l2) p m = findRoute l2 p m := by
  induction l1 with
  | nil => rfl
  | cons a rs ih =>
    rw [findRoute] at hf
    by_cases hc : a.path = p ∧ a.method = m
    · rw [if_pos hc] at hf
      cases hf
    · rw [if_neg hc] at hf
      rw [List.cons_append, findRoute, if_neg hc, ih hf]

theorem methodEntries_append (l1 l2 : List Route) (p : String) :
    methodEntries (l1 ++ l2) p = methodEntries l1 p ++ methodEntries l2 p := by
  induction l1 with
  | nil => rfl
  | cons a rs ih =>
    by_cases hc : a.path = p
    · rw [List.cons_append, methodEntries, if_pos hc, ih, methodEntries, if_pos hc,
        List.cons_append]
    · rw [List.cons_append, methodEntries, if_neg hc, ih, methodEntries, if_neg hc]

theorem countPair_append (x : String × String) (A B : List (String × String)) :
    countPair x (A ++ B) = countPair x A + countPair x B := by
  induction A with
  | nil => simp [countPair]
  | cons y ys ih => simp [countPair, ih]; omega

theorem countPair_methodEntries_zero (reg : List Route) (p mm : String)
    (hf : findRoute reg p mm = none) (oid : String) :
    countPair ((mm, oid)) (methodEntries reg p) = 0 := by
  induction reg with
  | nil => rfl
  | cons a rs ih =>
    rw [findRoute] at hf
    by_cases hc : a.path = p ∧ a.method = mm
    · rw [if_pos hc] at hf
      cases hf
    · rw [if_neg hc] at hf
      by_cases hap : a.path = p
      · rw [methodEntries, if_pos hap, countPair, if_neg ?_, ih hf]
        · intro heq
          exact hc ⟨hap, congrArg Prod.fst heq⟩
      · rw [methodEntries, if_neg hap, ih hf]

theorem countStr_removeStr_self (p : String) (l : List String) :
    countStr p (removeStr p l) = 0 := by
  induction l with
  | nil => rfl
  | cons a l ih =>
    by_cases ha : a = p
    · rw [removeStr, if_pos ha, ih]
    · rw [removeStr, if_neg ha, countStr, if_neg ha, ih]

theorem countStr_removeStr_ne (p s : String) (l : List String) (hne : p ≠ s) :
    countStr p (removeStr s l) = countStr p l := by
  induction l with
  | nil => rfl
  | cons a l ih =>
    by_cases ha : a = s
    · rw [removeStr, if_pos ha, ih, countStr,
        if_neg (fun hap : a = p => hne (hap ▸ ha))]
      omega
    · rw [removeStr, if_neg ha, countStr, countStr, ih]

theorem countStr_dedupKeep (p : String) (l : List String) :
    countStr p (dedupKeep l) = if p ∈ l then 1 else 0 := by
  induction l with
  | nil => rfl
  | cons a l ih =>
    rw [dedupKeep, countStr]
    by_cases ha : a = p
    · subst ha
      rw [if_pos rfl, countStr_removeStr_self, if_pos (List.mem_cons_self _ _)]
    · rw [if_neg ha, countStr_removeStr_ne p a _ (fun hpa => ha hpa.symm), ih]
      have hmem : p ∈ a :: l ↔ p ∈ l := by
        rw [List.mem_cons]
        exact ⟨fun hor => hor.resolve_left (fun hpa => ha hpa.symm), Or.inr⟩
      by_cases hp : p ∈ l
      · rw [if_pos hp, if_pos (hmem.mpr hp)]
      · rw [if_neg hp, if_neg (fun hc => hp (hmem.mp hc))]

theorem map_fst_schemaPaths (reg : List Route) :
    (schemaPaths reg).map Prod.fst = removeStr schemaPath (dedupKeep (listPaths reg)) := by
  rw [schemaPaths, List.map_map]
  exact List.map_id _

theorem listPaths_append (l1 l2 : List Route) :
    listPaths (l1 ++ l2) = listPaths l1 ++ listPaths l2 := by
  induction l1 with
  | nil => rfl
  | cons a rs ih => rw [List.cons_append, listPaths, ih, listPaths, List.cons_append]

/-! ## Claims about registration and the schema round trip -/

/-- C4 counterexample: the visible test registers a handler function named
`get_openapi_schema` on `('/test/', 'get')` and the resulting route's
operation identifier is `test_get`, not
`<handler_name>_<method> = get_openapi_schema_get`. -/
theorem register_route_operation_id_cx :
    (findRoute (register_route ("/test/") ("get") ("get_openapi_schema") testHandler []).1
        ("/test/") ("get")).map Route.operationId = some ("test_get") ∧
    ("test_get" : String) ≠ ("get_openapi_schema") ++ ("_") ++ ("get") :=
  ⟨rfl, by decide⟩

/-- C4 (amended): registering a handler on (path, method) in a registry where
that pair is free and the path is not the schema path returns the original
handler unchanged, stores a route whose operation identifier is the path with
slashes removed plus `_` plus the lower-cased method, and the schema document
then reports exactly one entry for that route: its path occurs exactly once
among the schema keys, looking the path up yields the path's method entries,
and the (lower-cased method, operationId) pair occurs exactly once there. -/
theorem register_route_schema_entry (p m n : String) (h : Handler) (reg : List Route)
    (hp : p ≠ schemaPath)
    (hf : findRoute reg p (strToLower m) = none) :
    (register_route p m n h reg).2 = h ∧
    findRoute (register_route p m n h reg).1 p (strToLower m) =
      some ⟨p, strToLower m, n, h, stripSlashes p ++ "_" ++ strToLower m⟩ ∧
    countStr p ((schemaPaths (register_route p m n h reg).1).map Prod.fst) = 1 ∧
    lookupPath (schemaPaths (register_route p m n h reg).1) p =
      some (methodEntries (register_route p m n h reg).1 p) ∧
    countPair ((strToLower m, stripSlashes p ++ "_" ++ strToLower m))
      (methodEntries (register_route p m n h reg).1 p) = 1 := by
  have hreg : (register_route p m n h reg).1 =
      reg ++ [⟨p, strToLower m, n, h, stripSlashes p ++ "_" ++ strToLower m⟩] :=
    overwriteRoute_of_not_found _ reg hf
  have hmem : p ∈ listPaths ((register_route p m n h reg).1) := by
    rw [hreg, listPaths_append]
    exact List.mem_append_right _ (List.mem_cons_self _ _)
  refine ⟨rfl, ?_, ?_, ?_, ?_⟩
  · rw [hreg, findRoute_append_none _ _ _ _ hf, findRoute, if_pos ⟨rfl, rfl⟩]
  · rw [map_fst_schemaPaths, countStr_removeStr_ne p schemaPath _ hp, countStr_dedupKeep,
      if_pos hmem]
  · rw [schemaPaths]
    exact lookupPath_map_self _ _ _
      (mem_removeStr_of schemaPath p _ (mem_dedupKeep_of p _ hmem) hp)
  · rw [hreg, methodEntries_append, countPair_append,
      countPair_methodEntries_zero reg p (strToLower m) hf _, methodEntries,
      if_pos rfl]
    rw [countPair, if_pos rfl]
    rfl

/-- C4 witness: the test module's registration, GET `/test/` with handler
function name `get_openapi_schema`, into the registry holding the schema
route. -/
theorem register_route_schema_entry_witness :
    (register_route ("/test/") ("get") ("get_openapi_schema") testHandler schemaRegistry).2 =
      testHandler ∧
    findRoute (register_route ("/test/") ("get") ("get_openapi_schema") testHandler
        schemaRegistry).1 ("/test/") (strToLower ("get")) =
      some ⟨"/test/", strToLower ("get"), "get_openapi_schema", testHandler,
        stripSlashes ("/test/") ++ "_" ++ strToLower ("get")⟩ ∧
    countStr ("/test/")
      ((schemaPaths (register_route ("/test/") ("get") ("get_openapi_schema") testHandler
        schemaRegistry).1).map Prod.fst) = 1 ∧
    lookupPath (schemaPaths (register_route ("/test/") ("get") ("get_openapi_schema")
        testHandler schemaRegistry).1) ("/test/") =
      some (methodEntries (register_route ("/test/") ("get") ("get_openapi_schema")
        testHandler schemaRegistry).1 ("/test/")) ∧
    countPair ((strToLower ("get"), stripSlashes ("/test/") ++ "_" ++ strToLower ("get")))
      (methodEntries (register_route ("/test/") ("get") ("get_openapi_schema") testHandler
        schemaRegistry).1 ("/test/")) = 1 :=
  register_route_schema_entry ("/test/") ("get") ("get_openapi_schema") testHandler
    schemaRegistry (by decide) rfl

/-- C5: with the schema route and exactly one application route — GET
`/test/` — registered, a GET request to `/schema/` yields the schema paths
mapping `/test/ → get → test_get`, and the full response body is the JSON
document whose `paths` key carries exactly that mapping. -/
theorem schema_endpoint_concrete :
    schemaPaths testRegistry = [(("/test/"), [(("get"), ("test_get"))])] ∧
    handle_request testRegistry schemaRawRequest =
      some (("HTTP/1.1 200 OK\nContent-Type: application/json;charset=UTF-8\n\n") ++
        ("\x7b\"paths\": \x7b\"/test/\": \x7b\"get\": \x7b\"operationId\": \"test_get\"\x7d\x7d\x7d\x7d")) := by
  exact ⟨by decide, by decide⟩

end Marew
